import Mathlib

/-!
Verification development for the `vipor` video-poker engine.

The definitions below are shallow embeddings of the Python sources:
  * `vipor/poker/cards.py`           — card model
  * `vipor/poker/hand_eval.py`       — standard jacks-or-better evaluator
  * `vipor/poker/hand_eval_deuces.py`        — deuces-wild evaluator
  * `vipor/poker/hand_eval_deuces_bonus.py`  — deuces-wild-bonus evaluator
  * `vipor/poker/best_hold_mc.py`    — Monte-Carlo best-hold search
  * `vipor/poker/frozen.py`          — frozen-hand EV reporter and card parser
  * `vipor/poker/holding_strategy_check.py`  — regression-check card parser
  * `vipor/poker/strategy_rules_j_riff.py`   — j-riff rule strategy
  * `vipor/poker/strategy_helpers.py`        — mask helpers
Machine integers are modelled as `ℕ`/`ℤ`, Python floats as `ℚ`,
raised exceptions as `Except`/`Option`, and the pseudo-random stream of
`random.Random` as an abstract stream of naturals.
-/

/-- The four suits; the source represents them as the strings
"S", "H", "D", "C" (`cards.py`, `SUITS`). -/
inductive Suit : Type
  | S
  | H
  | D
  | C
deriving DecidableEq

/-- Source: `cards.py`: `Card` is a frozen dataclass with `rank : int` (2..14) and a
suit.  Equality is by (rank, suit). -/
structure Card where
  rank : ℕ
  suit : Suit
deriving DecidableEq

/-- Source: `hand_eval.py`: `HandResult` — frozen dataclass wrapping the category. -/
structure HandResult where
  category : String
deriving DecidableEq

namespace HandEval

/- Category-name constants of `hand_eval.py`. -/
def ROYAL_FLUSH : String := "royal_flush"
def STRAIGHT_FLUSH : String := "straight_flush"
def FOUR_ACES_234 : String := "four_aces_234"
def FOUR_LOW_ACE : String := "four_low_ace"
def FOUR_ACES : String := "four_aces"
def FOUR_234 : String := "four_234"
def FOUR : String := "four_of_a_kind"
def FULL_HOUSE : String := "full_house"
def FLUSH : String := "flush"
def STRAIGHT : String := "straight"
def THREE : String := "three_of_a_kind"
def TWO_PAIR : String := "two_pair"
def JOB : String := "jacks_or_better"
def NOTHING : String := "nothing"

/-- The closed category set of the standard ruleset (14 values). -/
def standardCategories : List String :=
  [ROYAL_FLUSH, STRAIGHT_FLUSH, FOUR_ACES_234, FOUR_LOW_ACE, FOUR_ACES,
   FOUR_234, FOUR, FULL_HOUSE, FLUSH, STRAIGHT, THREE, TWO_PAIR, JOB, NOTHING]

/-- Source: `ranks = sorted(c.rank for c in cards)` -/
def sortedRanks (cards : List Card) : List ℕ :=
  List.insertionSort (· ≤ ·) (cards.map Card.rank)

/-- Source: `counts = Counter(ranks)` — multiplicity of a rank in the hand. -/
def rankCount (cards : List Card) (r : ℕ) : ℕ :=
  (cards.map Card.rank).count r

/-- Source: `unique = sorted(counts.keys())` -/
def uniqueRanks (cards : List Card) : List ℕ :=
  List.insertionSort (· ≤ ·) (cards.map Card.rank).dedup

/-- Source: `shape = sorted(counts.values(), reverse=True)` — the values of the
counter (iterated in first-occurrence key order) sorted descending. -/
def shape (cards : List Card) : List ℕ :=
  List.insertionSort (· ≥ ·) ((uniqueRanks cards).map (rankCount cards))

/-- Source: `flush = len({c.suit for c in cards}) == 1` -/
def isFlushHand (cards : List Card) : Bool :=
  (cards.map Card.suit).dedup.length = 1

/-- Source: `_is_straight(unique_sorted)` from `hand_eval.py`: needs 5 unique ranks;
the wheel `[2,3,4,5,14]` is special-cased; otherwise the 5 unique sorted
ranks must be `range(start, start+5)` for `start` the smallest. -/
def isStraightRanks (u : List ℕ) : Bool :=
  if u.length ≠ 5 then false
  else if u = [2, 3, 4, 5, 14] then true
  else u = List.range' (u.headD 0) 5

/-- Source: `quad_rank = next(r for r, c in counts.items() if c == 4)`; the counter's
keys iterate in first-occurrence order of the ascending-sorted rank list,
i.e. in ascending order. -/
def quadRank (cards : List Card) : ℕ :=
  (((uniqueRanks cards).filter fun r => rankCount cards r = 4).headD 0)

/-- Source: `kicker_rank = next(r for r, c in counts.items() if c == 1)` -/
def kickerRank (cards : List Card) : ℕ :=
  (((uniqueRanks cards).filter fun r => rankCount cards r = 1).headD 0)

/-- Source: `pair_rank = max(r for r, c in counts.items() if c == 2)` -/
def pairRankMax (cards : List Card) : ℕ :=
  (((uniqueRanks cards).filter fun r => rankCount cards r = 2).foldl max 0)

/-- The category chosen by `evaluate_hand` once the 5-card precondition has
been checked (the body of `hand_eval.py:evaluate_hand` after the raise). -/
def classifyStandard (cards : List Card) : String :=
  if isFlushHand cards && isStraightRanks (uniqueRanks cards) then
    -- `set(unique) == {10,11,12,13,14}`; `unique` is sorted and duplicate-free
    if uniqueRanks cards = [10, 11, 12, 13, 14] then ROYAL_FLUSH
    else STRAIGHT_FLUSH
  else if shape cards = [4, 1] then
    if quadRank cards = 14 then
      if kickerRank cards ∈ ([2, 3, 4] : List ℕ) then FOUR_ACES_234 else FOUR_ACES
    else if quadRank cards ∈ ([2, 3, 4] : List ℕ) then
      if kickerRank cards ∈ ([14, 2, 3, 4] : List ℕ) then FOUR_LOW_ACE else FOUR_234
    else FOUR
  else if shape cards = [3, 2] then FULL_HOUSE
  else if isFlushHand cards then FLUSH
  else if isStraightRanks (uniqueRanks cards) then STRAIGHT
  else if shape cards = [3, 1, 1] then THREE
  else if shape cards = [2, 2, 1] then TWO_PAIR
  else if shape cards = [2, 1, 1, 1] then
    if pairRankMax cards ≥ 11 then JOB else NOTHING
  else NOTHING

/-- Source: `hand_eval.py:evaluate_hand` — raises unless exactly 5 cards, then
classifies. -/
def evaluate_hand (cards : List Card) : Except String HandResult :=
  if cards.length ≠ 5 then .error "evaluate_hand expects exactly 5 cards"
  else .ok ⟨classifyStandard cards⟩

theorem length_shape (cards : List Card) :
    (shape cards).length = (uniqueRanks cards).length := by
  unfold shape
  rw [List.length_insertionSort, List.length_map]

theorem sum_shape (cards : List Card) : (shape cards).sum = cards.length := by
  unfold shape uniqueRanks
  rw [(List.perm_insertionSort _ _).sum_eq]
  rw [((List.perm_insertionSort (· ≤ ·) (cards.map Card.rank).dedup).map
        (rankCount cards)).sum_eq]
  unfold rankCount
  rw [List.sum_map_count_dedup_eq_length, List.length_map]

theorem isStraightRanks_of_short {u : List ℕ} (h : u.length ≠ 5) :
    isStraightRanks u = false := by
  unfold isStraightRanks
  simp [h]

end HandEval

namespace HandEval

theorem evaluate_hand_of_quad_shape (cards : List Card)
    (h : shape cards = [4, 1]) :
    evaluate_hand cards = .ok ⟨
      if quadRank cards = 14 then
        if kickerRank cards ∈ ([2, 3, 4] : List ℕ) then FOUR_ACES_234 else FOUR_ACES
      else if quadRank cards ∈ ([2, 3, 4] : List ℕ) then
        if kickerRank cards ∈ ([14, 2, 3, 4] : List ℕ) then FOUR_LOW_ACE else FOUR_234
      else FOUR⟩ := by
  have h5 : cards.length = 5 := by
    have hs := sum_shape cards
    rw [h] at hs
    simpa using hs.symm
  have hu : (uniqueRanks cards).length = 2 := by
    have hl := length_shape cards
    rw [h] at hl
    simpa using hl.symm
  have hstr : isStraightRanks (uniqueRanks cards) = false :=
    isStraightRanks_of_short (by omega)
  unfold evaluate_hand classifyStandard
  rw [if_neg (by omega)]
  simp [hstr, h]

/-- C2: on every hand of rank shape `[4,1]` the standard evaluator applies
the four-of-a-kind sub-categorisation: quad aces with a 2/3/4 kicker,
quad aces otherwise, low quads (2–4) with an ace-or-low kicker, low quads
otherwise, and the plain category for quad ranks 5..13. -/
theorem evaluate_hand_four_of_a_kind_subtypes (cards : List Card)
    (h : shape cards = [4, 1]) :
    (quadRank cards = 14 → kickerRank cards ∈ ([2, 3, 4] : List ℕ) →
        evaluate_hand cards = .ok ⟨FOUR_ACES_234⟩) ∧
    (quadRank cards = 14 → kickerRank cards ∉ ([2, 3, 4] : List ℕ) →
        evaluate_hand cards = .ok ⟨FOUR_ACES⟩) ∧
    (quadRank cards ∈ ([2, 3, 4] : List ℕ) →
        kickerRank cards ∈ ([14, 2, 3, 4] : List ℕ) →
        evaluate_hand cards = .ok ⟨FOUR_LOW_ACE⟩) ∧
    (quadRank cards ∈ ([2, 3, 4] : List ℕ) →
        kickerRank cards ∉ ([14, 2, 3, 4] : List ℕ) →
        evaluate_hand cards = .ok ⟨FOUR_234⟩) ∧
    (5 ≤ quadRank cards → quadRank cards ≤ 13 →
        evaluate_hand cards = .ok ⟨FOUR⟩) := by
  have he := evaluate_hand_of_quad_shape cards h
  refine ⟨?_, ?_, ?_, ?_, ?_⟩ <;> intro h1 h2 <;> rw [he]
  · rw [if_pos h1, if_pos h2]
  · rw [if_pos h1, if_neg h2]
  · have hq : quadRank cards ≠ 14 := by
      simp only [List.mem_cons, List.not_mem_nil, or_false] at h1
      omega
    rw [if_neg hq, if_pos h1, if_pos h2]
  · have hq : quadRank cards ≠ 14 := by
      simp only [List.mem_cons, List.not_mem_nil, or_false] at h1
      omega
    rw [if_neg hq, if_pos h1, if_neg h2]
  · have hq : quadRank cards ≠ 14 := by omega
    have hq' : quadRank cards ∉ ([2, 3, 4] : List ℕ) := by
      simp only [List.mem_cons, List.not_mem_nil, or_false]
      omega
    rw [if_neg hq, if_neg hq']

/-- Witness for C2 at the concrete hand A♠ A♥ A♦ A♣ 3♠. -/
theorem evaluate_hand_four_of_a_kind_subtypes_witness :
    evaluate_hand [⟨14, .S⟩, ⟨14, .H⟩, ⟨14, .D⟩, ⟨14, .C⟩, ⟨3, .S⟩]
      = .ok ⟨FOUR_ACES_234⟩ :=
  (evaluate_hand_four_of_a_kind_subtypes
      [⟨14, .S⟩, ⟨14, .H⟩, ⟨14, .D⟩, ⟨14, .C⟩, ⟨3, .S⟩]
      (by decide)).1 (by decide) (by decide)

end HandEval

namespace HandEval

theorem classifyStandard_mem (cards : List Card) :
    classifyStandard cards ∈ standardCategories := by
  unfold classifyStandard
  repeat' split
  all_goals simp [standardCategories, ROYAL_FLUSH, STRAIGHT_FLUSH, FOUR_ACES_234,
      FOUR_LOW_ACE, FOUR_ACES, FOUR_234, FOUR, FULL_HOUSE, FLUSH, STRAIGHT,
      THREE, TWO_PAIR, JOB, NOTHING]

end HandEval

/-- Source: `hand_eval_deuces.py` / `hand_eval_deuces_bonus.py`: `EvalResult` —
frozen dataclass wrapping the category (both files define the identical
class). -/
structure EvalResult where
  category : String
deriving DecidableEq

namespace Wild

/-!  Helpers shared verbatim between `hand_eval_deuces.py` and
`hand_eval_deuces_bonus.py` (each file contains an identical copy of
`_count_deuces`, `_naturals`, `_rank_counts`, `_all_naturals_same_suit`,
`_can_make_sequence`, `_can_make_any_straight`, `_can_make_royal`,
`_can_make_n_of_kind` and `_can_make_full_house`).  -/

/-- Source: `_count_deuces`: number of rank-2 cards. -/
def count_deuces (cards : List Card) : ℕ :=
  (cards.filter fun c => c.rank = 2).length

/-- Source: `_naturals`: the non-deuce cards, in hand order. -/
def naturals (cards : List Card) : List Card :=
  cards.filter fun c => c.rank ≠ 2

/-- Source: `_rank_counts(naturals)[r]` — the count a rank holds in the dict
(0 when absent, via `.get(r, 0)`). -/
def natRankCount (nats : List Card) (r : ℕ) : ℕ :=
  (nats.map Card.rank).count r

/-- The keys of `_rank_counts(naturals)`, in dict insertion order
(first occurrence). -/
def natRankKeys (nats : List Card) : List ℕ :=
  (nats.map Card.rank).dedup

/-- Source: `_all_naturals_same_suit` — vacuously true with no naturals. -/
def all_naturals_same_suit (nats : List Card) : Bool :=
  match nats with
  | [] => true
  | c :: rest => rest.all fun x => x.suit = c.suit

/-- Source: `ROYAL_SEQ = (10, 11, 12, 13, 14)` -/
def ROYAL_SEQ : List ℕ := [10, 11, 12, 13, 14]

/-- Source: `STRAIGHT_SEQS` — the ten straight windows, wheel first. -/
def STRAIGHT_SEQS : List (List ℕ) :=
  [[14, 2, 3, 4, 5], [2, 3, 4, 5, 6], [3, 4, 5, 6, 7], [4, 5, 6, 7, 8],
   [5, 6, 7, 8, 9], [6, 7, 8, 9, 10], [7, 8, 9, 10, 11], [8, 9, 10, 11, 12],
   [9, 10, 11, 12, 13], [10, 11, 12, 13, 14]]

/-- Source: `_can_make_sequence`: the ranks of `seq` missing from the natural ranks
must be coverable by the wild budget. -/
def can_make_sequence (nats : List Card) (wilds : ℕ) (seq : List ℕ) : Bool :=
  let present := (seq.filter fun r => r ∈ nats.map Card.rank).length
  5 - present ≤ wilds

/-- Source: `_can_make_any_straight` -/
def can_make_any_straight (nats : List Card) (wilds : ℕ) : Bool :=
  STRAIGHT_SEQS.any fun seq => can_make_sequence nats wilds seq

/-- Source: `_can_make_royal` -/
def can_make_royal (nats : List Card) (wilds : ℕ) : Bool :=
  can_make_sequence nats wilds ROYAL_SEQ

/-- Source: `_can_make_five_kind` (`hand_eval_deuces.py`): some natural rank reaches
count 5 with the wilds, or all five cards are wild. -/
def can_make_five_kind (nats : List Card) (wilds : ℕ) : Bool :=
  if wilds = 5 then true
  else (natRankKeys nats).any fun r => natRankCount nats r + wilds ≥ 5

/-- Source: `_can_make_n_of_kind` -/
def can_make_n_of_kind (nats : List Card) (wilds n : ℕ) : Bool :=
  ((natRankKeys nats).any fun r => natRankCount nats r + wilds ≥ n)
    || wilds ≥ n

/-- Source: `_can_make_full_house`: brute force over candidate ranks
`set(rc.keys()) | {3..14}`; wilds cover the triple's deficit first and the
remainder must cover the pair's deficit (`need3 > wilds` prunes via
`continue`, modelled as a `false` branch). -/
def can_make_full_house (nats : List Card) (wilds : ℕ) : Bool :=
  let candidates := (natRankKeys nats ++ List.range' 3 12).dedup
  candidates.any fun r3 =>
    let c3 := natRankCount nats r3
    let need3 := 3 - c3
    if need3 > wilds then false
    else
      let w2 := wilds - need3
      candidates.any fun r2 =>
        decide (r2 ≠ r3) && decide (2 - natRankCount nats r2 ≤ w2)

end Wild

namespace Deuces

open Wild

/- Category-name constants of `hand_eval_deuces.py`. -/
def NATURAL_ROYAL_FLUSH : String := "natural_royal_flush"
def FOUR_DEUCES : String := "four_deuces"
def WILD_ROYAL_FLUSH : String := "wild_royal_flush"
def FIVE_OF_A_KIND : String := "five_of_a_kind"
def STRAIGHT_FLUSH : String := "straight_flush"
def FOUR_OF_A_KIND : String := "four_of_a_kind"
def FULL_HOUSE : String := "full_house"
def FLUSH : String := "flush"
def STRAIGHT : String := "straight"
def THREE_OF_A_KIND : String := "three_of_a_kind"
def NOTHING : String := "nothing"

/-- The closed category set of the deuces-wild ruleset (11 values). -/
def deucesCategories : List String :=
  [NATURAL_ROYAL_FLUSH, FOUR_DEUCES, WILD_ROYAL_FLUSH, FIVE_OF_A_KIND,
   STRAIGHT_FLUSH, FOUR_OF_A_KIND, FULL_HOUSE, FLUSH, STRAIGHT,
   THREE_OF_A_KIND, NOTHING]

/-- Source: `sorted({c.rank for c in naturals})` -/
def sortedNatRankSet (nats : List Card) : List ℕ :=
  List.insertionSort (· ≤ ·) (nats.map Card.rank).dedup

/-- The category chosen by `evaluate_deuces` after the 5-card check.  The
nested natural-royal test (a fall-through inner `if`) is modelled as one
conjunction. -/
def classifyDeuces (cards : List Card) : String :=
  if count_deuces cards = 0 ∧ all_naturals_same_suit (naturals cards)
      ∧ sortedNatRankSet (naturals cards) = ROYAL_SEQ then
    NATURAL_ROYAL_FLUSH
  else if count_deuces cards = 4 then FOUR_DEUCES
  else if count_deuces cards > 0 ∧ all_naturals_same_suit (naturals cards)
      ∧ can_make_royal (naturals cards) (count_deuces cards) then
    WILD_ROYAL_FLUSH
  else if count_deuces cards > 0
      ∧ can_make_five_kind (naturals cards) (count_deuces cards) then
    FIVE_OF_A_KIND
  else if all_naturals_same_suit (naturals cards)
      ∧ can_make_any_straight (naturals cards) (count_deuces cards) then
    STRAIGHT_FLUSH
  else if can_make_n_of_kind (naturals cards) (count_deuces cards) 4 then
    FOUR_OF_A_KIND
  else if can_make_full_house (naturals cards) (count_deuces cards) then
    FULL_HOUSE
  else if all_naturals_same_suit (naturals cards) then FLUSH
  else if can_make_any_straight (naturals cards) (count_deuces cards) then
    STRAIGHT
  else if can_make_n_of_kind (naturals cards) (count_deuces cards) 3 then
    THREE_OF_A_KIND
  else NOTHING

/-- Source: `hand_eval_deuces.py:evaluate_deuces`. -/
def evaluate_deuces (cards : List Card) : Except String EvalResult :=
  if cards.length ≠ 5 then .error "evaluate_deuces expects exactly 5 cards"
  else .ok ⟨classifyDeuces cards⟩

theorem classifyDeuces_mem (cards : List Card) :
    classifyDeuces cards ∈ deucesCategories := by
  unfold classifyDeuces
  repeat' split
  all_goals simp [deucesCategories, NATURAL_ROYAL_FLUSH, FOUR_DEUCES, WILD_ROYAL_FLUSH,
      FIVE_OF_A_KIND, STRAIGHT_FLUSH, FOUR_OF_A_KIND, FULL_HOUSE, FLUSH,
      STRAIGHT, THREE_OF_A_KIND, NOTHING]

end Deuces

namespace DeucesBonus

open Wild

/- Category-name constants of `hand_eval_deuces_bonus.py`. -/
def NATURAL_ROYAL_FLUSH : String := "natural_royal_flush"
def FOUR_DEUCES_WITH_ACE : String := "four_deuces_with_ace"
def FOUR_DEUCES : String := "four_deuces"
def WILD_ROYAL_FLUSH : String := "wild_royal_flush"
def FIVE_ACES : String := "five_aces"
def FIVE_345 : String := "five_345"
def FIVE_6_TO_K : String := "five_6_to_k"
def STRAIGHT_FLUSH : String := "straight_flush"
def FOUR_OF_A_KIND : String := "four_of_a_kind"
def FULL_HOUSE : String := "full_house"
def FLUSH : String := "flush"
def STRAIGHT : String := "straight"
def THREE_OF_A_KIND : String := "three_of_a_kind"
def NOTHING : String := "nothing"

/-- The closed category set of the deuces-wild-bonus ruleset (14 values). -/
def bonusCategories : List String :=
  [NATURAL_ROYAL_FLUSH, FOUR_DEUCES_WITH_ACE, FOUR_DEUCES, WILD_ROYAL_FLUSH,
   FIVE_ACES, FIVE_345, FIVE_6_TO_K, STRAIGHT_FLUSH, FOUR_OF_A_KIND,
   FULL_HOUSE, FLUSH, STRAIGHT, THREE_OF_A_KIND, NOTHING]

/-- Source: `_is_natural_royal_flush`: no wilds, five naturals, single-suited, rank
set exactly the royal sequence. -/
def is_natural_royal_flush (nats : List Card) (wilds : ℕ) : Bool :=
  if wilds ≠ 0 then false
  else if nats.length ≠ 5 then false
  else if ¬ all_naturals_same_suit nats then false
  else List.insertionSort (· ≤ ·) (nats.map Card.rank).dedup = ROYAL_SEQ

/-- Source: `_four_deuces_category`: with exactly 4 wilds, the single remaining
natural (`next((c for c in cards if c.rank != 2), None)`) decides between
the ace-kicker and plain four-deuces categories. -/
def four_deuces_category (cards : List Card) (wilds : ℕ) : Option String :=
  if wilds ≠ 4 then none
  else
    match cards.find? fun c => c.rank ≠ 2 with
    | some natural => if natural.rank = 14 then some FOUR_DEUCES_WITH_ACE
                      else some FOUR_DEUCES
    | none => some FOUR_DEUCES

/-- Source: `_five_kind_category`: the three five-of-a-kind payout tiers, checked
ace tier first, then 3/4/5, then 6..K, with the all-wild fallback. -/
def five_kind_category (nats : List Card) (wilds : ℕ) : Option String :=
  if wilds = 0 then none
  else if natRankCount nats 14 + wilds ≥ 5 then some FIVE_ACES
  else if ([3, 4, 5] : List ℕ).any (fun r => natRankCount nats r + wilds ≥ 5) then
    some FIVE_345
  else if (List.range' 6 8).any (fun r => natRankCount nats r + wilds ≥ 5) then
    some FIVE_6_TO_K
  else if natRankKeys nats = [] ∧ wilds ≥ 5 then some FIVE_ACES
  else none

/-- The category chosen by `evaluate_deuces_bonus` after the 5-card check;
the two `Option`-producing helper checks are modelled by matching on their
result exactly as the source returns a truthy result. -/
def classifyBonus (cards : List Card) : String :=
  if is_natural_royal_flush (naturals cards) (count_deuces cards) then
    NATURAL_ROYAL_FLUSH
  else match four_deuces_category cards (count_deuces cards) with
  | some cat => cat
  | none =>
    if count_deuces cards > 0 ∧ all_naturals_same_suit (naturals cards)
        ∧ can_make_royal (naturals cards) (count_deuces cards) then
      WILD_ROYAL_FLUSH
    else match five_kind_category (naturals cards) (count_deuces cards) with
    | some cat => cat
    | none =>
      if all_naturals_same_suit (naturals cards)
          ∧ can_make_any_straight (naturals cards) (count_deuces cards) then
        STRAIGHT_FLUSH
      else if can_make_n_of_kind (naturals cards) (count_deuces cards) 4 then
        FOUR_OF_A_KIND
      else if can_make_full_house (naturals cards) (count_deuces cards) then
        FULL_HOUSE
      else if all_naturals_same_suit (naturals cards) then FLUSH
      else if can_make_any_straight (naturals cards) (count_deuces cards) then
        STRAIGHT
      else if can_make_n_of_kind (naturals cards) (count_deuces cards) 3 then
        THREE_OF_A_KIND
      else NOTHING

/-- Source: `hand_eval_deuces_bonus.py:evaluate_deuces_bonus`. -/
def evaluate_deuces_bonus (cards : List Card) : Except String EvalResult :=
  if cards.length ≠ 5 then
    .error "evaluate_deuces_bonus expects exactly 5 cards"
  else .ok ⟨classifyBonus cards⟩

theorem four_deuces_category_mem (cards : List Card) (wilds : ℕ) (cat : String)
    (h : four_deuces_category cards wilds = some cat) :
    cat = FOUR_DEUCES_WITH_ACE ∨ cat = FOUR_DEUCES := by
  unfold four_deuces_category at h
  repeat' split at h
  all_goals simp_all

theorem five_kind_category_mem (nats : List Card) (wilds : ℕ) (cat : String)
    (h : five_kind_category nats wilds = some cat) :
    cat = FIVE_ACES ∨ cat = FIVE_345 ∨ cat = FIVE_6_TO_K := by
  unfold five_kind_category at h
  repeat' split at h
  all_goals simp_all

theorem classifyBonus_mem (cards : List Card) :
    classifyBonus cards ∈ bonusCategories := by
  unfold classifyBonus
  split
  · decide
  split
  case _ cat hcat =>
    rcases four_deuces_category_mem _ _ _ hcat with h | h <;> subst h <;> decide
  repeat' split
  all_goals first
  | decide
  | (rename_i cat hcat
     rcases five_kind_category_mem _ _ _ hcat with h | h | h <;> subst h <;> decide)

end DeucesBonus

namespace DeucesBonus

open Wild

theorem find?_eq_head?_filter {α : Type} (p : α → Bool) (l : List α) :
    l.find? p = (l.filter p).head? := by
  induction l with
  | nil => rfl
  | cons a t ih =>
    by_cases h : p a = true
    · rw [List.find?_cons_of_pos _ h, List.filter_cons_of_pos h]
      rfl
    · rw [List.find?_cons_of_neg _ (by simpa using h),
        List.filter_cons_of_neg (by simpa using h), ih]

/-- C4: a 5-card hand holding exactly four deuces is classified by the bonus
evaluator as `four_deuces_with_ace` exactly when its single natural card is
an ace, and as `four_deuces` otherwise; no other category can preempt it
(the only earlier check, the natural royal flush, needs zero deuces). -/
theorem evaluate_deuces_bonus_four_deuces (cards : List Card) (c : Card)
    (h5 : cards.length = 5)
    (h4 : (cards.filter fun x => x.rank = 2).length = 4)
    (hn : naturals cards = [c]) :
    evaluate_deuces_bonus cards =
      .ok ⟨if c.rank = 14 then FOUR_DEUCES_WITH_ACE else FOUR_DEUCES⟩ := by
  have hw : count_deuces cards = 4 := h4
  have hfind : cards.find? (fun x => x.rank ≠ 2) = some c := by
    rw [find?_eq_head?_filter]
    have : cards.filter (fun x => x.rank ≠ 2) = [c] := hn
    rw [this]
    rfl
  unfold evaluate_deuces_bonus
  rw [if_neg (by omega)]
  unfold classifyBonus four_deuces_category
  rw [hw, hfind]
  rw [if_neg (by simp [is_natural_royal_flush])]
  by_cases hc : c.rank = 14
  · simp [hc]
  · simp [hc]

/-- Witness for C4 at the hand 2♣ 2♦ 2♥ 2♠ A♦. -/
theorem evaluate_deuces_bonus_four_deuces_witness :
    evaluate_deuces_bonus [⟨2, .C⟩, ⟨2, .D⟩, ⟨2, .H⟩, ⟨2, .S⟩, ⟨14, .D⟩]
      = .ok ⟨FOUR_DEUCES_WITH_ACE⟩ := by
  have h := evaluate_deuces_bonus_four_deuces
    [⟨2, .C⟩, ⟨2, .D⟩, ⟨2, .H⟩, ⟨2, .S⟩, ⟨14, .D⟩] ⟨14, .D⟩
    (by decide) (by decide) (by decide)
  simpa using h

end DeucesBonus

namespace Wild

theorem mem_range'_one {s n m : ℕ} : m ∈ List.range' s n ↔ s ≤ m ∧ m < s + n := by
  rw [List.mem_range']
  constructor
  · rintro ⟨i, hi, rfl⟩
    omega
  · intro h
    exact ⟨m - s, by omega, by omega⟩

theorem mem_fullHouseCandidates (nats : List Card) (r : ℕ) :
    r ∈ (natRankKeys nats ++ List.range' 3 12).dedup ↔
      (3 ≤ r ∧ r ≤ 14) ∨ r ∈ nats.map Card.rank := by
  simp only [List.mem_dedup, List.mem_append, natRankKeys, mem_range'_one]
  constructor
  · rintro (h | h)
    · exact Or.inr h
    · exact Or.inl (by omega)
  · rintro (h | h)
    · exact Or.inr (by omega)
    · exact Or.inl h

/-- C3: the deuces-wild full-house feasibility check succeeds exactly when
two distinct candidate ranks (each from `{3..14}` or among the present
natural ranks) can absorb the wilds: the triple's deficit is covered first
and the remaining wilds cover the pair's deficit, with no double counting. -/
theorem can_make_full_house_iff (nats : List Card) (w : ℕ) :
    can_make_full_house nats w = true ↔
      ∃ r3 r2 : ℕ, r3 ≠ r2 ∧
        ((3 ≤ r3 ∧ r3 ≤ 14) ∨ r3 ∈ nats.map Card.rank) ∧
        ((3 ≤ r2 ∧ r2 ≤ 14) ∨ r2 ∈ nats.map Card.rank) ∧
        max 0 (3 - (natRankCount nats r3 : ℤ)) ≤ (w : ℤ) ∧
        max 0 (2 - (natRankCount nats r2 : ℤ)) ≤
          (w : ℤ) - max 0 (3 - (natRankCount nats r3 : ℤ)) := by
  unfold can_make_full_house
  rw [List.any_eq_true]
  constructor
  · rintro ⟨r3, hmem, hbody⟩
    by_cases hcut : 3 - natRankCount nats r3 > w
    · rw [if_pos hcut] at hbody
      cases hbody
    · rw [if_neg hcut] at hbody
      rw [List.any_eq_true] at hbody
      obtain ⟨r2, hmem2, hb2⟩ := hbody
      rw [Bool.and_eq_true, decide_eq_true_eq, decide_eq_true_eq] at hb2
      refine ⟨r3, r2, Ne.symm hb2.1, (mem_fullHouseCandidates nats r3).mp hmem,
        (mem_fullHouseCandidates nats r2).mp hmem2, by omega, ?_⟩
      have h2 := hb2.2
      omega
  · rintro ⟨r3, r2, hne, hm3, hm2, h3, h2⟩
    refine ⟨r3, (mem_fullHouseCandidates nats r3).mpr hm3, ?_⟩
    rw [if_neg (by omega)]
    rw [List.any_eq_true]
    refine ⟨r2, (mem_fullHouseCandidates nats r2).mpr hm2, ?_⟩
    rw [Bool.and_eq_true, decide_eq_true_eq, decide_eq_true_eq]
    exact ⟨Ne.symm hne, by omega⟩

/-- Witness for C3: a pair of natural kings and a natural queen plus two
wilds can complete a full house. -/
theorem can_make_full_house_iff_witness :
    can_make_full_house [⟨13, .S⟩, ⟨13, .H⟩, ⟨12, .D⟩] 2 = true :=
  (can_make_full_house_iff [⟨13, .S⟩, ⟨13, .H⟩, ⟨12, .D⟩] 2).mpr
    ⟨13, 12, by decide, Or.inl (by omega), Or.inl (by omega),
      by decide, by decide⟩

end Wild

/-- C7: each of the three evaluators fails (raises) exactly on inputs that
are not 5 cards long, and on every 5-card input returns one category drawn
from its ruleset's closed category list. -/
theorem evaluators_total_and_closed :
    (∀ cards : List Card,
        (∃ e, HandEval.evaluate_hand cards = .error e) ↔ cards.length ≠ 5) ∧
    (∀ cards : List Card, cards.length = 5 →
        ∃ cat ∈ HandEval.standardCategories,
          HandEval.evaluate_hand cards = .ok ⟨cat⟩) ∧
    (∀ cards : List Card,
        (∃ e, Deuces.evaluate_deuces cards = .error e) ↔ cards.length ≠ 5) ∧
    (∀ cards : List Card, cards.length = 5 →
        ∃ cat ∈ Deuces.deucesCategories,
          Deuces.evaluate_deuces cards = .ok ⟨cat⟩) ∧
    (∀ cards : List Card,
        (∃ e, DeucesBonus.evaluate_deuces_bonus cards = .error e) ↔
          cards.length ≠ 5) ∧
    (∀ cards : List Card, cards.length = 5 →
        ∃ cat ∈ DeucesBonus.bonusCategories,
          DeucesBonus.evaluate_deuces_bonus cards = .ok ⟨cat⟩) := by
  refine ⟨?_, ?_, ?_, ?_, ?_, ?_⟩
  · intro cards
    constructor
    · rintro ⟨e, he⟩
      intro hlen
      unfold HandEval.evaluate_hand at he
      rw [if_neg (by omega)] at he
      cases he
    · intro h
      exact ⟨_, by unfold HandEval.evaluate_hand; rw [if_pos h]⟩
  · intro cards h
    refine ⟨HandEval.classifyStandard cards,
      HandEval.classifyStandard_mem cards, ?_⟩
    unfold HandEval.evaluate_hand
    rw [if_neg (by omega)]
  · intro cards
    constructor
    · rintro ⟨e, he⟩
      intro hlen
      unfold Deuces.evaluate_deuces at he
      rw [if_neg (by omega)] at he
      cases he
    · intro h
      exact ⟨_, by unfold Deuces.evaluate_deuces; rw [if_pos h]⟩
  · intro cards h
    refine ⟨Deuces.classifyDeuces cards, Deuces.classifyDeuces_mem cards, ?_⟩
    unfold Deuces.evaluate_deuces
    rw [if_neg (by omega)]
  · intro cards
    constructor
    · rintro ⟨e, he⟩
      intro hlen
      unfold DeucesBonus.evaluate_deuces_bonus at he
      rw [if_neg (by omega)] at he
      cases he
    · intro h
      exact ⟨_, by unfold DeucesBonus.evaluate_deuces_bonus; rw [if_pos h]⟩
  · intro cards h
    refine ⟨DeucesBonus.classifyBonus cards,
      DeucesBonus.classifyBonus_mem cards, ?_⟩
    unfold DeucesBonus.evaluate_deuces_bonus
    rw [if_neg (by omega)]

/-- Witness for C7: a concrete 5-card flush classified by the standard
evaluator, and the empty hand rejected by all three. -/
theorem evaluators_total_and_closed_witness :
    (∃ cat ∈ HandEval.standardCategories,
        HandEval.evaluate_hand
          [⟨2, .S⟩, ⟨3, .S⟩, ⟨4, .S⟩, ⟨5, .S⟩, ⟨7, .S⟩] = .ok ⟨cat⟩) ∧
    (∃ e, DeucesBonus.evaluate_deuces_bonus [] = .error e) :=
  ⟨evaluators_total_and_closed.2.1 _ (by decide),
   (evaluators_total_and_closed.2.2.2.2.1 []).mpr (by decide)⟩

namespace Frozen

/-- Source: `tok.strip()` on the character list (ASCII whitespace at both ends). -/
def stripChars (l : List Char) : List Char :=
  ((l.dropWhile (·.isWhitespace)).reverse.dropWhile (·.isWhitespace)).reverse

/-- Source: `tok.upper()` on the character list. -/
def upperChars (l : List Char) : List Char := l.map Char.toUpper

/-- Python `int(r)` on the rank substring: digits only (the tokens reaching
it contain no sign or inner whitespace); a non-numeric string raises, which
is modelled as `none`. -/
def digitsToNat? (l : List Char) : Option ℕ :=
  if l = [] then none
  else if l.all (·.isDigit) then
    some (l.foldl (fun acc c => 10 * acc + (c.toNat - '0'.toNat)) 0)
  else none

/-- Source: `suit not in {"S", "H", "D", "C"}` check plus decoding into `Suit`. -/
def suitOfChar? (c : Char) : Option Suit :=
  if c = 'S' then some .S
  else if c = 'H' then some .H
  else if c = 'D' then some .D
  else if c = 'C' then some .C
  else none

/-- Source: `frozen.py:parse_card`.  `tok[-1]` is the suit, `tok[:-1]` the rank
part; A/K/Q/J map to 14/13/12/11, anything else goes through `int`;
ranks outside 2..14 are rejected.  Raised `ValueError`s (bad suit,
non-numeric rank, out-of-range rank, empty token) are modelled as
`none`. -/
def parse_card (tok : String) : Option Card :=
  let t := upperChars (stripChars tok.data)
  match t.getLast? with
  | none => none
  | some sc =>
    match suitOfChar? sc with
    | none => none
    | some suit =>
      let r := t.dropLast
      let rank? : Option ℕ :=
        if r = ['A'] then some 14
        else if r = ['K'] then some 13
        else if r = ['Q'] then some 12
        else if r = ['J'] then some 11
        else digitsToNat? r
      match rank? with
      | none => none
      | some rank =>
        if rank < 2 ∨ rank > 14 then none else some ⟨rank, suit⟩

/-- Source: `[f(p) for p in parts]` with exception propagation. -/
def parseAll {α β : Type} (f : α → Option β) : List α → Option (List β)
  | [] => some []
  | a :: rest =>
    match f a, parseAll f rest with
    | some b, some bs => some (b :: bs)
    | _, _ => none

/-- Source: `s.replace(",", " ").split()` — runs of whitespace separate tokens and
produce no empty tokens. -/
def splitTokens (l : List Char) : List (List Char) :=
  (List.splitOnP (·.isWhitespace)
      (l.map fun c => if c = ',' then ' ' else c)).filter (· ≠ [])

/-- Source: `frozen.py:parse_hand`: exactly 5 tokens, all parseable, no duplicate
cards (`len(set(cards)) == 5`). -/
def parse_hand (s : String) : Option (List Card) :=
  if (splitTokens s.data).length ≠ 5 then none
  else
    match parseAll (fun p => parse_card ⟨p⟩) (splitTokens s.data) with
    | none => none
    | some cards => if cards.dedup.length ≠ 5 then none else some cards

theorem parseAll_length {α β : Type} (f : α → Option β) :
    ∀ (l : List α) (res : List β), parseAll f l = some res →
      res.length = l.length := by
  intro l
  induction l with
  | nil =>
    intro res h
    cases h
    rfl
  | cons a rest ih =>
    intro res h
    unfold parseAll at h
    cases hfa : f a with
    | none => rw [hfa] at h; cases h
    | some b =>
      rw [hfa] at h
      cases hrest : parseAll f rest with
      | none => rw [hrest] at h; cases h
      | some bs =>
        rw [hrest] at h
        cases h
        simp [ih bs hrest]

end Frozen

namespace HoldingCheck

/-- Source: `holding_strategy_check.py`: `RANK_MAP`. -/
def RANK_MAP : List (Char × ℕ) :=
  [('2', 2), ('3', 3), ('4', 4), ('5', 5), ('6', 6), ('7', 7), ('8', 8),
   ('9', 9), ('T', 10), ('J', 11), ('Q', 12), ('K', 13), ('A', 14)]

/-- Source: `holding_strategy_check.py:parse_card`: strip/upper, exactly two
characters, rank letter through `RANK_MAP`, suit letter through the suit
set; all raises modelled as `none`. -/
def parse_card (tok : String) : Option Card :=
  match Frozen.upperChars (Frozen.stripChars tok.data) with
  | [r, s] =>
    match RANK_MAP.lookup r, Frozen.suitOfChar? s with
    | some rank, some suit => some ⟨rank, suit⟩
    | _, _ => none
  | _ => none

/-- Source: `holding_strategy_check.py:parse_hand`: strip, split on whitespace,
exactly 5 tokens, parse each.  Note: no duplicate-card check. -/
def checkTokens (hand : String) : List (List Char) :=
  (List.splitOnP (·.isWhitespace) (Frozen.stripChars hand.data)).filter (· ≠ [])

/-- Source: `holding_strategy_check.py:parse_hand`: strip, split on whitespace,
exactly 5 tokens, parse each.  Note: no duplicate-card check. -/
def parse_hand (hand : String) : Option (List Card) :=
  if (checkTokens hand).length ≠ 5 then none
  else Frozen.parseAll (fun p => parse_card ⟨p⟩) (checkTokens hand)

end HoldingCheck

/-- C9 counterexample: no single parser accepts both ten spellings — the
frozen-report parser rejects "TH" (its rank fall-through is `int(r)`), and
the regression-check parser rejects "10H" (it insists on two-character
tokens). -/
theorem parse_card_ten_forms_counterexample :
    Frozen.parse_card "TH" = none ∧ HoldingCheck.parse_card "10H" = none :=
  ⟨by decide, by decide⟩

/-- C9 (amended): the frozen-report parser accepts "10H" (but not "TH"),
the regression-check parser accepts "TH" (but not "10H"); both map
A/K/Q/J to 14/13/12/11 and direct numeric ranks; the frozen-report hand
parser fails on a token count other than 5 and on duplicate cards, while
the regression-check hand parser checks only the token count (duplicates
pass). -/
theorem parse_card_token_forms :
    Frozen.parse_card "10H" = some ⟨10, .H⟩ ∧
    Frozen.parse_card "TH" = none ∧
    HoldingCheck.parse_card "TH" = some ⟨10, .H⟩ ∧
    HoldingCheck.parse_card "10H" = none ∧
    Frozen.parse_card "AS" = some ⟨14, .S⟩ ∧
    Frozen.parse_card "KD" = some ⟨13, .D⟩ ∧
    Frozen.parse_card "QC" = some ⟨12, .C⟩ ∧
    Frozen.parse_card "JH" = some ⟨11, .H⟩ ∧
    Frozen.parse_card "2D" = some ⟨2, .D⟩ ∧
    HoldingCheck.parse_card "AS" = some ⟨14, .S⟩ ∧
    HoldingCheck.parse_card "KD" = some ⟨13, .D⟩ ∧
    HoldingCheck.parse_card "QC" = some ⟨12, .C⟩ ∧
    HoldingCheck.parse_card "JH" = some ⟨11, .H⟩ ∧
    HoldingCheck.parse_card "2D" = some ⟨2, .D⟩ ∧
    (∀ (s : String) (cards : List Card), Frozen.parse_hand s = some cards →
        cards.length = 5 ∧ cards.Nodup) ∧
    Frozen.parse_hand "AS KS QS JS" = none ∧
    Frozen.parse_hand "AS,AS,KS,QS,JS" = none ∧
    HoldingCheck.parse_hand "AS AS KS QS JS" =
      some [⟨14, .S⟩, ⟨14, .S⟩, ⟨13, .S⟩, ⟨12, .S⟩, ⟨11, .S⟩] := by
  refine ⟨by decide, by decide, by decide, by decide, by decide, by decide,
    by decide, by decide, by decide, by decide, by decide, by decide,
    by decide, by decide, ?_, by decide, by decide, by decide⟩
  intro s cards h
  unfold Frozen.parse_hand at h
  by_cases hlen : (Frozen.splitTokens s.data).length ≠ 5
  · rw [if_pos hlen] at h
    exact Option.noConfusion h
  · rw [if_neg hlen] at h
    cases hpa : Frozen.parseAll (fun p => Frozen.parse_card ⟨p⟩)
        (Frozen.splitTokens s.data) with
    | none =>
      rw [hpa] at h
      exact Option.noConfusion h
    | some cards0 =>
      simp only [hpa] at h
      by_cases hd : cards0.dedup.length ≠ 5
      · rw [if_pos hd] at h
        exact Option.noConfusion h
      · rw [if_neg hd] at h
        have hc : cards0 = cards := Option.some.inj h
        subst hc
        have hclen : cards0.length = 5 :=
          (Frozen.parseAll_length _ _ _ hpa).trans (by omega)
        have hde : cards0.dedup = cards0 :=
          (cards0.dedup_sublist).eq_of_length (by omega)
        exact ⟨hclen, hde ▸ cards0.nodup_dedup⟩

/-- Witness for the amended C9's universally quantified conjunct at a
concrete successfully parsed hand string. -/
theorem parse_card_token_forms_witness :
    [(⟨14, .S⟩ : Card), ⟨13, .S⟩, ⟨12, .S⟩, ⟨11, .S⟩, ⟨10, .S⟩].length = 5 ∧
    List.Nodup [(⟨14, .S⟩ : Card), ⟨13, .S⟩, ⟨12, .S⟩, ⟨11, .S⟩, ⟨10, .S⟩] :=
  parse_card_token_forms.2.2.2.2.2.2.2.2.2.2.2.2.2.2.1
    "AS KS QS JS 10S" _ (by decide)

/-- The pseudo-random stream of one `random.Random` instance: the t-th raw
draw of the generator.  `randrange(n)` consumes one draw and returns a
value `< n` (for `n > 0`), modelled as the draw taken modulo `n`. -/
structure RNG where
  next : ℕ → ℕ

def randrange (g : RNG) (t n : ℕ) : ℕ := g.next t % n

namespace BestHoldMc

/-- The `while True` retry of `_draw_k`'s `k == 3` path: keep drawing
`randrange(n)` until the index differs from both `i` and `j`.  The loop is
given fuel; a pathological stream that never leaves `{i, j}` makes the
Python loop spin forever, modelled as `none`. -/
def rejectLoop (g : RNG) (n i j : ℕ) : ℕ → ℕ → Option (ℕ × ℕ)
  | 0, _ => none
  | fuel + 1, t =>
    if randrange g t n ≠ i ∧ randrange g t n ≠ j then some (randrange g t n, t + 1)
    else rejectLoop g n i j fuel (t + 1)

/-- Source: `rng.sample(pool, k)` — `k` elements drawn without replacement, i.e. at
`k` distinct positions: modelled by removing each chosen position before
the next choice.  A pool smaller than `k` raises (`none`). -/
def sample (g : RNG) : List Card → ℕ → ℕ → Option (List Card × ℕ)
  | _, 0, t => some ([], t)
  | pool, k + 1, t =>
    match pool[randrange g t pool.length]? with
    | none => none
    | some c =>
      match sample g (pool.eraseIdx (randrange g t pool.length)) k (t + 1) with
      | none => none
      | some (rest, t2) => some (c :: rest, t2)

/-- The distinct index pair drawn by `_draw_k` for `k ∈ {2, 3}`:
`i = randrange(n)`, `j = randrange(n-1)` bumped past `i`. -/
def drawTwoIdx (g : RNG) (n t : ℕ) : ℕ × ℕ :=
  (randrange g t n,
   if randrange g (t + 1) (n - 1) ≥ randrange g t n
   then randrange g (t + 1) (n - 1) + 1
   else randrange g (t + 1) (n - 1))

/-- Source: `best_hold_mc.py:_draw_k` — draw `k` cards without replacement from
`remaining`, with the index-exclusion fast paths for `k ≤ 3` and
`rng.sample` for `k ∈ {4, 5}`. -/
def draw_k (g : RNG) (fuel : ℕ) (remaining : List Card) (k t : ℕ) :
    Option (List Card × ℕ) :=
  if k = 0 then some ([], t)
  else if k = 1 then
    match remaining[randrange g t remaining.length]? with
    | some c => some ([c], t + 1)
    | none => none
  else if k = 2 then
    match remaining[(drawTwoIdx g remaining.length t).1]?,
        remaining[(drawTwoIdx g remaining.length t).2]? with
    | some a, some b => some ([a, b], t + 2)
    | _, _ => none
  else if k = 3 then
    match rejectLoop g remaining.length (drawTwoIdx g remaining.length t).1
        (drawTwoIdx g remaining.length t).2 fuel (t + 2) with
    | none => none
    | some (kidx, t3) =>
      match remaining[(drawTwoIdx g remaining.length t).1]?,
          remaining[(drawTwoIdx g remaining.length t).2]?,
          remaining[kidx]? with
      | some a, some b, some c => some ([a, b, c], t3)
      | _, _, _ => none
  else sample g remaining k t

theorem drawTwoIdx_ne (g : RNG) (n t : ℕ) :
    (drawTwoIdx g n t).1 ≠ (drawTwoIdx g n t).2 := by
  unfold drawTwoIdx
  dsimp only
  split <;> omega

theorem rejectLoop_spec (g : RNG) (n i j : ℕ) :
    ∀ (fuel t : ℕ) (kidx t3 : ℕ),
      rejectLoop g n i j fuel t = some (kidx, t3) → kidx ≠ i ∧ kidx ≠ j := by
  intro fuel
  induction fuel with
  | zero =>
    intro t kidx t3 h
    exact Option.noConfusion h
  | succ m ih =>
    intro t kidx t3 h
    unfold rejectLoop at h
    split at h
    · obtain ⟨h1, h2⟩ := Prod.mk.injEq .. ▸ Option.some.inj h
      subst h1
      assumption
    · exact ih (t + 1) kidx t3 h

theorem not_mem_eraseIdx_of_getElem? {l : List Card} {i : ℕ} {c : Card}
    (hnd : l.Nodup) (h : l[i]? = some c) : c ∉ l.eraseIdx i := by
  intro hmem
  obtain ⟨j, hji, hj⟩ := List.mem_eraseIdx_iff_getElem?.mp hmem
  obtain ⟨hlt, -⟩ := List.getElem?_eq_some_iff.mp hj
  exact hji (List.getElem?_inj hlt hnd (by rw [hj, h]))

theorem sample_nodup_mem (g : RNG) :
    ∀ (k : ℕ) (pool : List Card) (t : ℕ) (out : List Card × ℕ),
      pool.Nodup → sample g pool k t = some out →
      out.1.Nodup ∧ ∀ c ∈ out.1, c ∈ pool := by
  intro k
  induction k with
  | zero =>
    intro pool t out _ h
    cases h
    simp
  | succ m ih =>
    intro pool t out hnd h
    unfold sample at h
    cases hget : pool[randrange g t pool.length]? with
    | none =>
      rw [hget] at h
      exact Option.noConfusion h
    | some c =>
      rw [hget] at h
      cases hrec : sample g (pool.eraseIdx (randrange g t pool.length)) m (t + 1) with
      | none =>
        rw [hrec] at h
        exact Option.noConfusion h
      | some pr =>
        rw [hrec] at h
        cases h
        obtain ⟨hrnd, hrmem⟩ := ih _ _ _ (hnd.eraseIdx _) hrec
        constructor
        · exact List.Nodup.cons
            (fun hc => not_mem_eraseIdx_of_getElem? hnd hget (hrmem c hc)) hrnd
        · intro x hx
          rcases List.mem_cons.mp hx with rfl | hx
          · exact List.getElem?_mem hget
          · exact List.eraseIdx_subset _ _ (hrmem x hx)

end BestHoldMc

namespace BestHoldMc

theorem ne_of_getElem?_ne_idx {l : List Card} (hnd : l.Nodup) {i j : ℕ}
    {a b : Card} (hij : i ≠ j) (ha : l[i]? = some a) (hb : l[j]? = some b) :
    a ≠ b := by
  intro hEq
  subst hEq
  obtain ⟨hlt, -⟩ := List.getElem?_eq_some_iff.mp ha
  exact hij (List.getElem?_inj hlt hnd (ha.trans hb.symm))

theorem draw_k_nodup_mem (g : RNG) (fuel : ℕ) (remaining : List Card)
    (k t : ℕ) (out : List Card × ℕ) (hnd : remaining.Nodup)
    (h : draw_k g fuel remaining k t = some out) :
    out.1.Nodup ∧ ∀ c ∈ out.1, c ∈ remaining := by
  unfold draw_k at h
  by_cases h0 : k = 0
  · rw [if_pos h0] at h
    cases h
    simp
  rw [if_neg h0] at h
  by_cases h1 : k = 1
  · rw [if_pos h1] at h
    cases hget : remaining[randrange g t remaining.length]? with
    | none =>
      rw [hget] at h
      exact Option.noConfusion h
    | some c =>
      rw [hget] at h
      cases h
      refine ⟨by simp, ?_⟩
      intro x hx
      rw [List.mem_singleton] at hx
      subst hx
      exact List.getElem?_mem hget
  rw [if_neg h1] at h
  by_cases h2 : k = 2
  · rw [if_pos h2] at h
    cases ha : remaining[(drawTwoIdx g remaining.length t).1]? with
    | none =>
      rw [ha] at h
      exact Option.noConfusion h
    | some a =>
      cases hb : remaining[(drawTwoIdx g remaining.length t).2]? with
      | none =>
        rw [ha, hb] at h
        exact Option.noConfusion h
      | some b =>
        rw [ha, hb] at h
        cases h
        have hab : a ≠ b :=
          ne_of_getElem?_ne_idx hnd (drawTwoIdx_ne g remaining.length t) ha hb
        refine ⟨by simp [hab], ?_⟩
        intro x hx
        rcases List.mem_cons.mp hx with rfl | hx
        · exact List.getElem?_mem ha
        · rw [List.mem_singleton] at hx
          subst hx
          exact List.getElem?_mem hb
  rw [if_neg h2] at h
  by_cases h3 : k = 3
  · rw [if_pos h3] at h
    cases hrej : rejectLoop g remaining.length
        (drawTwoIdx g remaining.length t).1
        (drawTwoIdx g remaining.length t).2 fuel (t + 2) with
    | none =>
      rw [hrej] at h
      exact Option.noConfusion h
    | some pr =>
      obtain ⟨kidx, t3⟩ := pr
      simp only [hrej] at h
      obtain ⟨hki, hkj⟩ := rejectLoop_spec g remaining.length
        (drawTwoIdx g remaining.length t).1
        (drawTwoIdx g remaining.length t).2 fuel (t + 2) kidx t3 hrej
      cases ha : remaining[(drawTwoIdx g remaining.length t).1]? with
      | none =>
        rw [ha] at h
        exact Option.noConfusion h
      | some a =>
        cases hb : remaining[(drawTwoIdx g remaining.length t).2]? with
        | none =>
          rw [ha, hb] at h
          exact Option.noConfusion h
        | some b =>
          cases hc : remaining[kidx]? with
          | none =>
            rw [ha, hb, hc] at h
            exact Option.noConfusion h
          | some c =>
            rw [ha, hb, hc] at h
            cases h
            have hab : a ≠ b :=
              ne_of_getElem?_ne_idx hnd (drawTwoIdx_ne g remaining.length t) ha hb
            have hca : c ≠ a := ne_of_getElem?_ne_idx hnd hki hc ha
            have hcb : c ≠ b := ne_of_getElem?_ne_idx hnd hkj hc hb
            refine ⟨by simp [hab, hca.symm, hcb.symm, Ne.symm hca, Ne.symm hcb], ?_⟩
            intro x hx
            rcases List.mem_cons.mp hx with rfl | hx
            · exact List.getElem?_mem ha
            rcases List.mem_cons.mp hx with rfl | hx
            · exact List.getElem?_mem hb
            rw [List.mem_singleton] at hx
            subst hx
            exact List.getElem?_mem hc
  rw [if_neg h3] at h
  exact sample_nodup_mem g k remaining t out hnd h

/-- Source: `best_hold_mc.py:_fresh_deck_excluding` deck construction: all 52
(suit, rank) combinations, suits in the literal order C, D, H, S, skipping
the `(rank, suit)` pairs of the excluded cards. -/
def freshDeckList (cards : List Card) : List Card :=
  [Suit.C, Suit.D, Suit.H, Suit.S].flatMap fun s =>
    ((List.range' 2 13).filter fun r =>
        (r, s) ∉ cards.map fun c => (c.rank, c.suit)).map fun r => ⟨r, s⟩

/-- Source: `_fresh_deck_excluding` raises unless exactly 47 cards remain. -/
def fresh_deck_excluding (cards : List Card) : Option (List Card) :=
  if (freshDeckList cards).length ≠ 47 then none
  else some (freshDeckList cards)

theorem suit_of_mem_freshDeck_inner (cards : List Card) (s : Suit) (a : Card)
    (ha : a ∈ ((List.range' 2 13).filter fun r =>
        (r, s) ∉ cards.map fun c => (c.rank, c.suit)).map
          fun r => (⟨r, s⟩ : Card)) :
    a.suit = s := by
  rw [List.mem_map] at ha
  obtain ⟨r, -, rfl⟩ := ha
  rfl

theorem freshDeckList_nodup (cards : List Card) :
    (freshDeckList cards).Nodup := by
  unfold freshDeckList
  rw [List.nodup_flatMap]
  constructor
  · intro s _
    exact ((List.nodup_range' 2 13).filter _).map
      (fun a b hEq => congrArg Card.rank hEq)
  · have hd : ∀ s1 s2 : Suit, s1 ≠ s2 →
        (Function.onFun List.Disjoint fun s =>
          ((List.range' 2 13).filter fun r =>
              (r, s) ∉ cards.map fun c => (c.rank, c.suit)).map
            fun r => (⟨r, s⟩ : Card)) s1 s2 := by
      intro s1 s2 hne a h1 h2
      exact hne ((suit_of_mem_freshDeck_inner cards s1 a h1).symm.trans
        (suit_of_mem_freshDeck_inner cards s2 a h2))
    exact List.Pairwise.imp (fun hab => hd _ _ hab)
      (show List.Pairwise (· ≠ ·) [Suit.C, Suit.D, Suit.H, Suit.S] by decide)

theorem freshDeckList_excludes (cards : List Card) (c : Card)
    (hc : c ∈ freshDeckList cards) : c ∉ cards := by
  unfold freshDeckList at hc
  rw [List.mem_flatMap] at hc
  obtain ⟨s, -, hmem⟩ := hc
  rw [List.mem_map] at hmem
  obtain ⟨r, hr, rfl⟩ := hmem
  rw [List.mem_filter] at hr
  intro hcc
  have hpair : ((r, s) : ℕ × Suit) ∈ cards.map fun c => (c.rank, c.suit) :=
    List.mem_map_of_mem _ hcc
  have hno := hr.2
  rw [decide_eq_true_eq] at hno
  exact hno hpair

end BestHoldMc

namespace Frozen

/-- Source: `frozen.py:FULL_DECK` — all 52 cards, suits in the order S, H, D, C,
ranks 2..14 within each suit. -/
def FULL_DECK : List Card :=
  [Suit.S, Suit.H, Suit.D, Suit.C].flatMap fun s =>
    (List.range' 2 13).map fun r => (⟨r, s⟩ : Card)

/-- Source: `remaining = [c for c in FULL_DECK if c not in dealt]` with
`dealt = set(initial)`. -/
def remaining_after (initial : List Card) : List Card :=
  FULL_DECK.filter fun c => c ∉ initial

end Frozen

/-- C5: every draw path produces pairwise-distinct cards taken from the
remaining deck (`_draw_k`'s index-exclusion fast paths for k ≤ 3 and the
generic `rng.sample`), and both engines' remaining decks are
duplicate-free and exclude every card of the initial hand. -/
theorem draws_without_replacement :
    (∀ (g : RNG) (fuel : ℕ) (remaining : List Card) (k t : ℕ)
        (out : List Card × ℕ), remaining.Nodup →
        BestHoldMc.draw_k g fuel remaining k t = some out →
        out.1.Nodup ∧ ∀ c ∈ out.1, c ∈ remaining) ∧
    (∀ (g : RNG) (pool : List Card) (k t : ℕ) (out : List Card × ℕ),
        pool.Nodup → BestHoldMc.sample g pool k t = some out →
        out.1.Nodup ∧ ∀ c ∈ out.1, c ∈ pool) ∧
    (∀ (cards deck : List Card),
        BestHoldMc.fresh_deck_excluding cards = some deck →
        deck.Nodup ∧ ∀ c ∈ deck, c ∉ cards) ∧
    (∀ initial : List Card, (Frozen.remaining_after initial).Nodup ∧
        ∀ c ∈ Frozen.remaining_after initial, c ∉ initial) := by
  refine ⟨?_, ?_, ?_, ?_⟩
  · intro g fuel remaining k t out hnd h
    exact BestHoldMc.draw_k_nodup_mem g fuel remaining k t out hnd h
  · intro g pool k t out hnd h
    exact BestHoldMc.sample_nodup_mem g k pool t out hnd h
  · intro cards deck h
    unfold BestHoldMc.fresh_deck_excluding at h
    by_cases hl : (BestHoldMc.freshDeckList cards).length ≠ 47
    · rw [if_pos hl] at h
      exact Option.noConfusion h
    · rw [if_neg hl] at h
      cases h
      exact ⟨BestHoldMc.freshDeckList_nodup cards,
        BestHoldMc.freshDeckList_excludes cards⟩
  · intro initial
    constructor
    · exact (show Frozen.FULL_DECK.Nodup by decide).filter _
    · intro c hc
      have := (List.mem_filter.mp hc).2
      rwa [decide_eq_true_eq] at this

/-- Witness for C5: a concrete one-card draw from a two-card deck. -/
theorem draws_without_replacement_witness :
    [(⟨2, Suit.S⟩ : Card)].Nodup ∧
    ∀ c ∈ [(⟨2, Suit.S⟩ : Card)], c ∈ [(⟨2, Suit.S⟩ : Card), ⟨3, Suit.H⟩] :=
  draws_without_replacement.1 ⟨fun _ => 0⟩ 5 [⟨2, .S⟩, ⟨3, .H⟩] 1 0
    ([⟨2, .S⟩], 1) (by decide) (by decide)

/-- Source: `paytable.py:PayTable` — name, bet unit, category → payout mapping. -/
structure PayTable where
  name : String
  bet_unit : ℤ
  payouts : List (String × ℕ)

/-- Source: `PayTable.payout_for`: `payouts.get(category, 0)`. -/
def PayTable.payout_for (pt : PayTable) (category : String) : ℕ :=
  (pt.payouts.lookup category).getD 0

namespace BestHoldMc

/-- Source: `_mc_ev_for_mask`'s draw-position precomputation: the positions whose
mask bit is NOT set. -/
def draw_positions (mask : ℕ) : List ℕ :=
  (List.range 5).filter fun i => ¬ mask.testBit i

/-- Source: `for di, pos in enumerate(draw_pos): final[pos] = drawn[di]`. -/
def setPositions (final : List Card) (pos : List ℕ) (drawn : List Card) :
    List Card :=
  (pos.zip drawn).foldl (fun f pc => f.set pc.1 pc.2) final

/-- The trial loop of `_mc_ev_for_mask`: each trial redraws the unheld
positions (reusing one `final` buffer — every draw position is overwritten
every trial), evaluates, and accumulates
`(payout_for(category) * paytable_bet) * expected_mult`.  Evaluator errors
and an exhausted rejection loop are `none`. -/
def mcTrialLoop (g : RNG) (fuel : ℕ) (pt : PayTable)
    (evaluator : List Card → Except String EvalResult)
    (remaining : List Card) (drawPos : List ℕ)
    (expected_mult : ℚ) (paytable_bet : ℤ) :
    ℕ → List Card → ℕ → ℚ → Option (ℚ × ℕ)
  | 0, _, t, acc => some (acc, t)
  | n + 1, final, t, acc =>
    match (if drawPos.length = 0 then some (final, t)
           else match draw_k g fuel remaining drawPos.length t with
                | none => none
                | some (drawn, t2) =>
                  some (setPositions final drawPos drawn, t2)) with
    | none => none
    | some (final2, t2) =>
      match evaluator final2 with
      | .error _ => none
      | .ok r =>
        mcTrialLoop g fuel pt evaluator remaining drawPos expected_mult
          paytable_bet n final2 t2
          (acc + ((pt.payout_for r.category : ℚ) * (paytable_bet : ℚ))
            * expected_mult)

/-- Source: `best_hold_mc.py:_mc_ev_for_mask` — mean accumulated payout over the
trials (`total_pay / trials if trials else 0.0`). -/
def mc_ev_for_mask (g : RNG) (fuel : ℕ) (pt : PayTable)
    (evaluator : List Card → Except String EvalResult)
    (init : List Card) (mask : ℕ) (trials : ℕ) (remaining : List Card)
    (expected_mult : ℚ) (paytable_bet : ℤ) (t : ℕ) : Option (ℚ × ℕ) :=
  match mcTrialLoop g fuel pt evaluator remaining (draw_positions mask)
      expected_mult paytable_bet trials init t 0 with
  | none => none
  | some (total, t2) =>
    some ((if trials = 0 then 0 else total / (trials : ℚ)), t2)

theorem mcTrialLoop_no_draw (g : RNG) (fuel : ℕ) (pt : PayTable)
    (evaluator : List Card → Except String EvalResult)
    (remaining : List Card) (expected_mult : ℚ) (paytable_bet : ℤ)
    (final : List Card) (r : EvalResult) (h : evaluator final = .ok r) :
    ∀ (n t : ℕ) (acc : ℚ),
      mcTrialLoop g fuel pt evaluator remaining [] expected_mult paytable_bet
        n final t acc =
      some (acc + n * (((pt.payout_for r.category : ℚ) * (paytable_bet : ℚ))
        * expected_mult), t) := by
  intro n
  induction n with
  | zero =>
    intro t acc
    unfold mcTrialLoop
    norm_num
  | succ m ih =>
    intro t acc
    unfold mcTrialLoop
    simp [h, ih]
    ring

/-- C6: for the full-hold mask 31 (no draw positions) the Monte-Carlo EV is
exact — `payout_for(evaluator(initial)) * paytable_bet * expected_mult` for
any positive trial count, `0` for zero trials — and is computed without
touching the RNG: the result (value and stream position) is the same for
every generator, fuel and remaining deck. -/
theorem mc_ev_for_mask_full_hold (g : RNG) (fuel : ℕ) (pt : PayTable)
    (evaluator : List Card → Except String EvalResult)
    (init : List Card) (trials : ℕ) (remaining : List Card)
    (expected_mult : ℚ) (paytable_bet : ℤ) (t : ℕ) (r : EvalResult)
    (h : evaluator init = .ok r) :
    mc_ev_for_mask g fuel pt evaluator init 31 trials remaining
      expected_mult paytable_bet t =
    some ((if trials = 0 then 0 else
      ((pt.payout_for r.category : ℚ) * (paytable_bet : ℚ)) * expected_mult),
      t) := by
  have hdp : draw_positions 31 = [] := by decide
  unfold mc_ev_for_mask
  rw [hdp, mcTrialLoop_no_draw g fuel pt evaluator remaining expected_mult
    paytable_bet init r h trials t 0]
  dsimp only
  by_cases h0 : trials = 0
  · simp [h0]
  · rw [if_neg h0, if_neg h0, zero_add]
    congr 1
    rw [mul_comm (trials : ℚ) _, mul_div_assoc,
      div_self (by exact_mod_cast h0 : (trials : ℚ) ≠ 0), mul_one]

/-- Witness for C6 at a concrete paytable, hand and trial count. -/
theorem mc_ev_for_mask_full_hold_witness :
    mc_ev_for_mask ⟨fun _ => 7⟩ 3 ⟨"pt", 1, [("flush", 6)]⟩
      DeucesBonus.evaluate_deuces_bonus
      [⟨3, .S⟩, ⟨4, .S⟩, ⟨5, .S⟩, ⟨6, .S⟩, ⟨8, .S⟩] 31 10 [] 1 1 0 =
      some (6, 0) := by
  have h := mc_ev_for_mask_full_hold ⟨fun _ => 7⟩ 3 ⟨"pt", 1, [("flush", 6)]⟩
    DeucesBonus.evaluate_deuces_bonus
    [⟨3, .S⟩, ⟨4, .S⟩, ⟨5, .S⟩, ⟨6, .S⟩, ⟨8, .S⟩] 10 [] 1 1 0
    ⟨DeucesBonus.FLUSH⟩ (by rfl)
  rw [h]
  norm_num [PayTable.payout_for, DeucesBonus.FLUSH]


/-- The running-best fold of `make_mc_best_strategy`'s inner `strategy`
(lines 123–141 of `best_hold_mc.py`), over the first `n` masks: starting
from `best_mask = 0, best_ev = -1.0`, each mask is evaluated in ascending
order and the running best is replaced only on a strictly greater EV.  The
per-mask EV estimate is abstracted as `ev`. -/
def bestFold (ev : ℕ → ℚ) (n : ℕ) : ℕ × ℚ :=
  (List.range n).foldl
    (fun acc mask => if ev mask > acc.2 then (mask, ev mask) else acc) (0, -1)

/-- The full loop: all 32 masks in ascending numeric order. -/
def best_mask_loop (ev : ℕ → ℚ) : ℕ × ℚ := bestFold ev 32

theorem bestFold_spec (ev : ℕ → ℚ) :
    ∀ n : ℕ, 0 < n → (∀ m, m < n → -1 < ev m) →
      (bestFold ev n).1 < n ∧
      (bestFold ev n).2 = ev (bestFold ev n).1 ∧
      (∀ m, m < n → ev m ≤ (bestFold ev n).2) ∧
      (∀ m, m < (bestFold ev n).1 → ev m < (bestFold ev n).2) := by
  intro n
  induction n with
  | zero =>
    intro h
    omega
  | succ m ih =>
    intro _ hev
    by_cases hm : m = 0
    · subst hm
      have h0 : -1 < ev 0 := hev 0 (by omega)
      unfold bestFold
      simp only [List.range_succ, List.range_zero, List.nil_append,
        List.foldl_cons, List.foldl_nil]
      rw [if_pos h0]
      refine ⟨by omega, rfl, ?_, ?_⟩
      · intro k hk
        interval_cases k
        exact le_refl _
      · intro k hk
        exact absurd hk (Nat.not_lt_zero k)
    · obtain ⟨ih1, ih2, ih3, ih4⟩ :=
        ih (by omega) (fun k hk => hev k (by omega))
      have hstep : bestFold ev (m + 1) =
          (if ev m > (bestFold ev m).2 then (m, ev m) else bestFold ev m) := by
        unfold bestFold
        rw [List.range_succ, List.foldl_append, List.foldl_cons, List.foldl_nil]
      by_cases hgt : ev m > (bestFold ev m).2
      · rw [hstep, if_pos hgt]
        refine ⟨by omega, rfl, ?_, ?_⟩
        · intro k hk
          rcases Nat.lt_succ_iff_lt_or_eq.mp hk with hk | rfl
          · exact le_of_lt (lt_of_le_of_lt (ih3 k hk) hgt)
          · exact le_refl _
        · intro k hk
          exact lt_of_le_of_lt (ih3 k hk) hgt
      · rw [hstep, if_neg hgt]
        refine ⟨by omega, ih2, ?_, ih4⟩
        intro k hk
        rcases Nat.lt_succ_iff_lt_or_eq.mp hk with hk | rfl
        · exact ih3 k hk
        · exact le_of_not_lt hgt

/-- C1: the selection loop visits all 32 masks in ascending numeric order
(`bestFold ev 32` by definition) and — whenever every mask's EV estimate is
nonnegative, as every Monte-Carlo payout average is — returns a valid mask
whose EV is greatest, and which is numerically smallest among the masks
attaining that EV (a later mask only displaces the running best on a
strictly greater EV). -/
theorem best_mask_loop_first_argmax (ev : ℕ → ℚ)
    (h : ∀ m, m < 32 → 0 ≤ ev m) :
    (best_mask_loop ev).1 < 32 ∧
    (best_mask_loop ev).2 = ev (best_mask_loop ev).1 ∧
    (∀ m, m < 32 → ev m ≤ ev (best_mask_loop ev).1) ∧
    (∀ m, m < 32 → ev m = ev (best_mask_loop ev).1 →
      (best_mask_loop ev).1 ≤ m) := by
  unfold best_mask_loop
  obtain ⟨h1, h2, h3, h4⟩ := bestFold_spec ev 32 (by omega)
    (fun m hm => lt_of_lt_of_le (by norm_num) (h m hm))
  refine ⟨h1, h2, fun m hm => ?_, ?_⟩
  · rw [← h2]
    exact h3 m hm
  intro m hm hEq
  by_contra hlt
  push_neg at hlt
  have := h4 m hlt
  rw [h2, ← hEq] at this
  exact lt_irrefl _ this

/-- Witness for C1 at the constant-zero EV oracle. -/
theorem best_mask_loop_first_argmax_witness :
    (best_mask_loop fun _ => (0 : ℚ)).1 < 32 ∧
    (best_mask_loop fun _ => (0 : ℚ)).2 =
      (fun _ : ℕ => (0 : ℚ)) (best_mask_loop fun _ => (0 : ℚ)).1 ∧
    (∀ m, m < 32 → (fun _ : ℕ => (0 : ℚ)) m ≤
      (fun _ : ℕ => (0 : ℚ)) (best_mask_loop fun _ => (0 : ℚ)).1) ∧
    (∀ m, m < 32 → (fun _ : ℕ => (0 : ℚ)) m =
        (fun _ : ℕ => (0 : ℚ)) (best_mask_loop fun _ => (0 : ℚ)).1 →
      (best_mask_loop fun _ => (0 : ℚ)).1 ≤ m) :=
  best_mask_loop_first_argmax (fun _ => 0) (fun _ _ => le_refl 0)

end BestHoldMc

namespace Frozen

/-- Source: `frozen.py:FrozenResult`. -/
structure FrozenResult where
  trials : ℕ
  hold_mask : ℕ
  avg_payout : ℚ
  avg_net : ℚ
  category_counts : List (String × ℕ)
deriving DecidableEq

/-- Source: `cat_counts[cat] = cat_counts.get(cat, 0) + 1` on an insertion-ordered
dict: bump the first matching key or append a fresh one. -/
def bumpCount : List (String × ℕ) → String → List (String × ℕ)
  | [], cat => [(cat, 1)]
  | (k, v) :: rest, cat =>
    if k = cat then (k, v + 1) :: rest else (k, v) :: bumpCount rest cat

/-- The trial loop of `frozen_ev_mc`: sample the unheld positions from the
remaining deck (`rng.sample(remaining, draw_n) if draw_n else []`), fill a
fresh copy of the initial hand, classify with the standard evaluator,
count the category and accumulate `payout_for(cat) * bet_per_hand`. -/
def frozenTrialLoop (g : RNG) (pt : PayTable) (remaining : List Card)
    (draw_positions : List ℕ) (initial : List Card) (bet_per_hand : ℤ) :
    ℕ → ℕ → ℤ → List (String × ℕ) → Option (ℤ × List (String × ℕ) × ℕ)
  | 0, t, total, counts => some (total, counts, t)
  | n + 1, t, total, counts =>
    match (if draw_positions.length = 0 then some ([], t)
           else BestHoldMc.sample g remaining draw_positions.length t) with
    | none => none
    | some (drawn, t2) =>
      match HandEval.evaluate_hand
          (BestHoldMc.setPositions initial draw_positions drawn) with
      | .error _ => none
      | .ok res =>
        frozenTrialLoop g pt remaining draw_positions initial bet_per_hand
          n t2 (total + (pt.payout_for res.category : ℤ) * bet_per_hand)
          (bumpCount counts res.category)

/-- Source: `frozen.py:frozen_ev_mc`.  The draw positions are the mask's unset
bits, exactly as in the search engine; `avg_payout` is
`total_payout / trials if trials else 0.0` and `avg_net` subtracts the
per-hand bet. -/
def frozen_ev_mc (g : RNG) (pt : PayTable) (initial : List Card)
    (hold_mask : ℕ) (trials : ℕ) (bet_per_hand : ℤ) : Option FrozenResult :=
  match frozenTrialLoop g pt (remaining_after initial)
      (BestHoldMc.draw_positions hold_mask) initial bet_per_hand
      trials 0 0 [] with
  | none => none
  | some (total, counts, _) =>
    some ⟨trials, hold_mask,
      (if trials = 0 then 0 else (total : ℚ) / (trials : ℚ)),
      (if trials = 0 then 0 else (total : ℚ) / (trials : ℚ))
        - (bet_per_hand : ℚ),
      counts⟩

/-- The histogram's total count. -/
def sumCounts (l : List (String × ℕ)) : ℕ := (l.map Prod.snd).sum

/-- The payout mass of a histogram:
`Σ payout_for(cat) * count * bet`. -/
def weightedPayout (pt : PayTable) (bet : ℤ) (l : List (String × ℕ)) : ℤ :=
  (l.map fun p => (pt.payout_for p.1 : ℤ) * (p.2 : ℤ) * bet).sum

theorem sumCounts_bump (l : List (String × ℕ)) (cat : String) :
    sumCounts (bumpCount l cat) = sumCounts l + 1 := by
  induction l with
  | nil => rfl
  | cons p rest ih =>
    obtain ⟨k, v⟩ := p
    unfold bumpCount
    by_cases h : k = cat
    · rw [if_pos h]
      unfold sumCounts
      simp
      omega
    · rw [if_neg h]
      unfold sumCounts at ih ⊢
      simp at ih ⊢
      omega

theorem weightedPayout_bump (pt : PayTable) (bet : ℤ)
    (l : List (String × ℕ)) (cat : String) :
    weightedPayout pt bet (bumpCount l cat) =
      weightedPayout pt bet l + (pt.payout_for cat : ℤ) * bet := by
  induction l with
  | nil =>
    unfold bumpCount weightedPayout
    simp
  | cons p rest ih =>
    obtain ⟨k, v⟩ := p
    unfold bumpCount
    by_cases h : k = cat
    · subst h
      rw [if_pos rfl]
      unfold weightedPayout
      simp
      ring
    · rw [if_neg h]
      unfold weightedPayout at ih ⊢
      simp at ih ⊢
      rw [ih]
      ring

theorem frozenTrialLoop_invariant (g : RNG) (pt : PayTable)
    (remaining : List Card) (dp : List ℕ) (initial : List Card) (bet : ℤ) :
    ∀ (n t : ℕ) (total : ℤ) (counts : List (String × ℕ))
      (out : ℤ × List (String × ℕ) × ℕ),
      frozenTrialLoop g pt remaining dp initial bet n t total counts =
        some out →
      sumCounts out.2.1 = sumCounts counts + n ∧
      out.1 - weightedPayout pt bet out.2.1 =
        total - weightedPayout pt bet counts := by
  intro n
  induction n with
  | zero =>
    intro t total counts out h
    cases h
    simp
  | succ m ih =>
    intro t total counts out h
    unfold frozenTrialLoop at h
    cases hdraw : (if dp.length = 0 then some (([] : List Card), t)
        else BestHoldMc.sample g remaining dp.length t) with
    | none =>
      rw [hdraw] at h
      exact Option.noConfusion h
    | some pr =>
      obtain ⟨drawn, t2⟩ := pr
      simp only [hdraw] at h
      cases heval : HandEval.evaluate_hand
          (BestHoldMc.setPositions initial dp drawn) with
      | error e =>
        rw [heval] at h
        exact Option.noConfusion h
      | ok res =>
        rw [heval] at h
        obtain ⟨ih1, ih2⟩ := ih t2
          (total + (pt.payout_for res.category : ℤ) * bet)
          (bumpCount counts res.category) out h
        constructor
        · rw [ih1, sumCounts_bump]
          omega
        · rw [ih2, weightedPayout_bump]
          ring

/-- C10: whenever `frozen_ev_mc` returns, every trial has incremented
exactly one histogram bucket — the counts sum to the trial count — and the
reported average payout is the histogram's payout mass divided by the
trial count (`0` for zero trials, where the histogram is empty). -/
theorem frozen_ev_mc_histogram (g : RNG) (pt : PayTable)
    (initial : List Card) (hold_mask trials : ℕ) (bet : ℤ)
    (res : FrozenResult)
    (h : frozen_ev_mc g pt initial hold_mask trials bet = some res) :
    sumCounts res.category_counts = trials ∧
    res.avg_payout =
      (weightedPayout pt bet res.category_counts : ℚ) / (trials : ℚ) ∧
    res.avg_net = res.avg_payout - (bet : ℚ) ∧
    res.trials = trials := by
  unfold frozen_ev_mc at h
  cases hloop : frozenTrialLoop g pt (remaining_after initial)
      (BestHoldMc.draw_positions hold_mask) initial bet trials 0 0 [] with
  | none =>
    rw [hloop] at h
    exact Option.noConfusion h
  | some pr =>
    obtain ⟨total, counts, tend⟩ := pr
    rw [hloop] at h
    obtain ⟨hsum, htot⟩ := frozenTrialLoop_invariant g pt
      (remaining_after initial) (BestHoldMc.draw_positions hold_mask)
      initial bet trials 0 0 [] (total, counts, tend) hloop
    dsimp only at hsum htot
    cases h
    dsimp only
    have hsum0 : sumCounts ([] : List (String × ℕ)) = 0 := rfl
    have hw0 : weightedPayout pt bet ([] : List (String × ℕ)) = 0 := rfl
    rw [hsum0] at hsum
    rw [hw0] at htot
    have htotal : total = weightedPayout pt bet counts := by omega
    refine ⟨by omega, ?_, rfl, rfl⟩
    by_cases h0 : trials = 0
    · subst h0
      rw [if_pos rfl]
      norm_num
    · rw [if_neg h0, htotal]

/-- Witness for C10: two frozen trials of a pat flush (mask 31, no
drawing). -/
theorem frozen_ev_mc_histogram_witness :
    sumCounts [("flush", 2)] = 2 ∧
    ((12 : ℤ) : ℚ) / ((2 : ℕ) : ℚ) =
      (weightedPayout ⟨"pt", 1, [("flush", 6)]⟩ 1 [("flush", 2)] : ℚ)
        / ((2 : ℕ) : ℚ) ∧
    ((12 : ℤ) : ℚ) / ((2 : ℕ) : ℚ) - ((1 : ℤ) : ℚ)
      = ((12 : ℤ) : ℚ) / ((2 : ℕ) : ℚ) - ((1 : ℤ) : ℚ) ∧
    (2 : ℕ) = 2 :=
  frozen_ev_mc_histogram ⟨fun _ => 0⟩ ⟨"pt", 1, [("flush", 6)]⟩
    [⟨3, .S⟩, ⟨4, .S⟩, ⟨5, .S⟩, ⟨7, .S⟩, ⟨9, .S⟩] 31 2 1
    ⟨2, 31, ((12 : ℤ) : ℚ) / ((2 : ℕ) : ℚ),
      ((12 : ℤ) : ℚ) / ((2 : ℕ) : ℚ) - ((1 : ℤ) : ℚ), [("flush", 2)]⟩
    (by rfl)

end Frozen

/-- Modelled from the spec: module `hold.py` (imported by the strategies
for `HoldDecision`) is not among the sources; §3 of the spec defines
`HoldDecision` as a 5-bit hold mask in 0..31, bit `i` set ⇔ position `i`
is kept. -/
structure HoldDecision where
  mask : ℕ
deriving DecidableEq

namespace JRiff

/-- Source: `strategy_helpers.py:ROYAL_RANKS` (also `ROYAL_SET` in the j-riff
module — the same rank set). -/
def ROYAL_RANKS : List ℕ := [10, 11, 12, 13, 14]

/-- Source: `strategy_helpers.py:mask_from_indices`.  The source raises on an index
outside 0..4; every caller below passes positions of a 5-card hand, so the
guard cannot fire and the embedding is total. -/
def mask_from_indices (idxs : List ℕ) : ℕ :=
  idxs.foldl (fun m i => m ||| (1 <<< i)) 0

/-- Source: `_idxs(cards, pred)` — `enumerate` positions whose card satisfies the
predicate, in order. -/
def idxsFrom (p : Card → Bool) : ℕ → List Card → List ℕ
  | _, [] => []
  | i, c :: cs =>
    if p c then i :: idxsFrom p (i + 1) cs else idxsFrom p (i + 1) cs

def idxsWhere (cards : List Card) (p : Card → Bool) : List ℕ :=
  idxsFrom p 0 cards

/-- Source: `deuce_idx = _idxs(cards, lambda c: c.rank == DEUCE_RANK)` -/
def deuceIdx (cards : List Card) : List ℕ :=
  idxsWhere cards fun c => c.rank = 2

/-- Source: `royal_idx = _idxs(cards, lambda c: c.rank in ROYAL_RANKS and c.rank != DEUCE_RANK)` -/
def royalIdx (cards : List Card) : List ℕ :=
  idxsWhere cards fun c => decide (c.rank ∈ ROYAL_RANKS) && decide (c.rank ≠ 2)

/-- Source: `dict.setdefault(key, []).append(i)` on an insertion-ordered dict. -/
def addGroup {α : Type} [DecidableEq α] :
    List (α × List ℕ) → α → ℕ → List (α × List ℕ)
  | [], s, i => [(s, [i])]
  | (k, v) :: rest, s, i =>
    if k = s then (k, v ++ [i]) :: rest else (k, v) :: addGroup rest s i

/-- Source: `royals_by_suit` — group the given card positions by suit, in first
encounter order. -/
def groupBySuitIdx (cards : List Card) (idxs : List ℕ) :
    List (Suit × List ℕ) :=
  idxs.foldl (fun g i =>
    match cards[i]? with
    | some c => addGroup g c.suit i
    | none => g) []

/-- Source: `max(dict, key=lambda s: len(dict[s]))` — the value of the first entry
attaining the maximal length (Python `max` keeps the first maximum). -/
def bestGroup {α : Type} : List (α × List ℕ) → List ℕ
  | [] => []
  | (_, v) :: rest =>
    if (bestGroup rest).length > v.length then bestGroup rest else v

/-- The rank→positions dicts of the strategy: with `skipDeuces` the d=1
branch's `counts` (deuces excluded), without it the trailing branch's
`counts` over all cards. -/
def groupRanksFrom (skipDeuces : Bool) :
    ℕ → List Card → List (ℕ × List ℕ) → List (ℕ × List ℕ)
  | _, [], g => g
  | i, c :: cs, g =>
    if skipDeuces ∧ c.rank = 2 then groupRanksFrom skipDeuces (i + 1) cs g
    else groupRanksFrom skipDeuces (i + 1) cs (addGroup g c.rank i)

def countsNonDeuce (cards : List Card) : List (ℕ × List ℕ) :=
  groupRanksFrom true 0 cards []

def countsAll (cards : List Card) : List (ℕ × List ℕ) :=
  groupRanksFrom false 0 cards []

/-- Source: `counts[r]` lookup (present by construction wherever used). -/
def groupOf (g : List (ℕ × List ℕ)) (r : ℕ) : List ℕ :=
  (g.lookup r).getD []

/-- Source: `pair_idxs = [idxs for idxs in counts.values() if len(idxs) == 2]`
(non-deuce counts, d=1 branch). -/
def pairGroups (cards : List Card) : List (List ℕ) :=
  ((countsNonDeuce cards).map Prod.snd).filter fun v => v.length = 2

/-- Source: `MADE_HAND_CATEGORIES` of `strategy_rules_j_riff.py`. -/
def MADE_HAND_CATEGORIES : List String :=
  ["royal_flush", "natural_royal_flush", "wild_royal_flush",
   "straight_flush", "five_of_a_kind", "five_aces", "five_345",
   "five_6_to_k", "four_of_a_kind", "four_deuces", "four_deuces_with_ace",
   "full_house", "flush", "straight"]

/-- Source: `cat.lower()` — ASCII lower-casing, character by character. -/
def strToLower (s : String) : String := ⟨s.data.map Char.toLower⟩

/-- Source: `cat = evaluator(cards).category` inside `try/except` (`cat = None` on
a raise); `_choose_evaluator()` resolves to the deuces-wild-bonus
evaluator, whose import always succeeds. -/
def catOf (cards : List Card) : Option String :=
  match DeucesBonus.evaluate_deuces_bonus cards with
  | .ok r => some r.category
  | .error _ => none

/-- The d=1 branch's fall-through: hold deuce + the unique natural pair if
exactly one exists, else the deuce alone. -/
def d1PairFallthrough (cards : List Card) : HoldDecision :=
  if (pairGroups cards).length = 1 then
    ⟨mask_from_indices (deuceIdx cards ++ (pairGroups cards).headD [])⟩
  else ⟨mask_from_indices (deuceIdx cards)⟩

/-- Source: `min(...)` over a nonempty Python list. -/
def minD : List ℕ → ℕ
  | [] => 0
  | a :: rest => rest.foldl min a

/-- Source: `trip_ranks = sorted([r for r, idxs in counts.items() if len(idxs) == 3])` -/
def tripRanks (cards : List Card) : List ℕ :=
  List.insertionSort (· ≤ ·)
    (((countsAll cards).filter fun p => p.2.length = 3).map Prod.fst)

/-- Source: `pair_ranks = sorted([r for r, idxs in counts.items() if len(idxs) == 2])` -/
def pairRanksAll (cards : List Card) : List ℕ :=
  List.insertionSort (· ≤ ·)
    (((countsAll cards).filter fun p => p.2.length = 2).map Prod.fst)

/-- The d=0 `by_suit` dict, pre-seeded `{"C": [], "D": [], "H": [], "S": []}`,
filled with positions of royal-set cards. -/
def addRoyalSetFrom : ℕ → List Card → List (Suit × List ℕ) →
    List (Suit × List ℕ)
  | _, [], g => g
  | i, c :: cs, g =>
    if c.rank ∈ ROYAL_RANKS then addRoyalSetFrom (i + 1) cs (addGroup g c.suit i)
    else addRoyalSetFrom (i + 1) cs g

def royalSetGroups (cards : List Card) : List (Suit × List ℕ) :=
  addRoyalSetFrom 0 cards
    [(Suit.C, []), (Suit.D, []), (Suit.H, []), (Suit.S, [])]

/-- Source: `max(by_suit.values(), key=len)` — first maximal value. -/
def bestValues : List (List ℕ) → List ℕ
  | [] => []
  | v :: rest =>
    if (bestValues rest).length > v.length then bestValues rest else v

/-- The code after the deuce-count branches of
`j_riff_strategy_deuces_wild_bonus` (reached when `d ∉ {1, 2, 3, 4}`):
suited royal trio, made hands, trips by preference, 3-to-a-royal, then a
single pair by preference. -/
def tailDecision (cards : List Card) : HoldDecision :=
  if (royalIdx cards).length ≥ 3 ∧
      (bestGroup (groupBySuitIdx cards (royalIdx cards))).length ≥ 2 then
    ⟨mask_from_indices (deuceIdx cards ++
      bestGroup (groupBySuitIdx cards (royalIdx cards)))⟩
  else if (match catOf cards with
           | some c => MADE_HAND_CATEGORIES.contains (strToLower c)
           | none => false) then ⟨31⟩
  else if tripRanks cards ≠ [] ∧ 14 ∈ tripRanks cards then
    ⟨mask_from_indices (groupOf (countsAll cards) 14)⟩
  else if tripRanks cards ≠ [] ∧
      (tripRanks cards).filter (fun r => 3 ≤ r ∧ r ≤ 5) ≠ [] then
    ⟨mask_from_indices (groupOf (countsAll cards)
      (minD ((tripRanks cards).filter fun r => 3 ≤ r ∧ r ≤ 5)))⟩
  else if tripRanks cards ≠ [] ∧
      (tripRanks cards).filter (fun r => 6 ≤ r ∧ r ≤ 13) ≠ [] then
    ⟨mask_from_indices (groupOf (countsAll cards)
      (minD ((tripRanks cards).filter fun r => 6 ≤ r ∧ r ≤ 13)))⟩
  else if (deuceIdx cards).length = 0 ∧
      (bestValues ((royalSetGroups cards).map Prod.snd)).length ≥ 3 then
    ⟨mask_from_indices (bestValues ((royalSetGroups cards).map Prod.snd))⟩
  else if pairRanksAll cards = [] then ⟨0⟩
  else if 14 ∈ pairRanksAll cards then
    ⟨mask_from_indices (groupOf (countsAll cards) 14)⟩
  else if (pairRanksAll cards).filter (fun r => 3 ≤ r ∧ r ≤ 5) ≠ [] then
    ⟨mask_from_indices (groupOf (countsAll cards)
      (minD ((pairRanksAll cards).filter fun r => 3 ≤ r ∧ r ≤ 5)))⟩
  else if (pairRanksAll cards).filter (fun r => 6 ≤ r ∧ r ≤ 13) ≠ [] then
    ⟨mask_from_indices (groupOf (countsAll cards)
      (minD ((pairRanksAll cards).filter fun r => 6 ≤ r ∧ r ≤ 13)))⟩
  else ⟨mask_from_indices (groupOf (countsAll cards) (minD (pairRanksAll cards)))⟩

/-- Source: `strategy_rules_j_riff.py:j_riff_strategy_deuces_wild_bonus`. -/
def j_riff_strategy_deuces_wild_bonus (cards : List Card) : HoldDecision :=
  if (deuceIdx cards).length = 4 then
    ⟨mask_from_indices (deuceIdx cards ++
      idxsWhere cards fun c => c.rank = 14)⟩
  else if (deuceIdx cards).length = 3 then
    ⟨mask_from_indices (deuceIdx cards)⟩
  else if (deuceIdx cards).length = 2 then
    if (royalIdx cards).length ≥ 3 ∧
        (bestGroup (groupBySuitIdx cards (royalIdx cards))).length ≥ 2 then
      ⟨mask_from_indices (deuceIdx cards ++
        bestGroup (groupBySuitIdx cards (royalIdx cards)))⟩
    else ⟨mask_from_indices (deuceIdx cards)⟩
  else if (deuceIdx cards).length = 1 then
    match catOf cards with
    | some c =>
      if strToLower c = "straight" then ⟨mask_from_indices (deuceIdx cards)⟩
      else if strToLower c = "flush" then ⟨mask_from_indices (deuceIdx cards)⟩
      else if MADE_HAND_CATEGORIES.contains (strToLower c) then ⟨31⟩
      else d1PairFallthrough cards
    | none => d1PairFallthrough cards
  else tailDecision cards

end JRiff

namespace JRiff

theorem length_idxsFrom (p : Card → Bool) :
    ∀ (l : List Card) (i : ℕ),
      (idxsFrom p i l).length = (l.filter p).length := by
  intro l
  induction l with
  | nil =>
    intro i
    rfl
  | cons c cs ih =>
    intro i
    unfold idxsFrom
    by_cases h : p c
    · rw [if_pos h, List.filter_cons_of_pos h]
      simp [ih]
    · rw [if_neg h, List.filter_cons_of_neg (by simpa using h), ih]

theorem bonusCategories_toLower :
    ∀ c ∈ DeucesBonus.bonusCategories, strToLower c = c := by
  intro c hc
  fin_cases hc <;> decide

/-- C8: with exactly one deuce in a 5-card hand, the j-riff deuces-wild-
bonus strategy holds only the deuce when the evaluated category is straight
or flush (the documented SUBOPTIMAL collapse), holds all five cards on any
other made-hand category, and otherwise holds the deuce plus the natural
pair when exactly one natural pair exists, else the deuce alone. -/
theorem j_riff_one_deuce (cards : List Card) (h5 : cards.length = 5)
    (hd : Wild.count_deuces cards = 1) :
    j_riff_strategy_deuces_wild_bonus cards =
      (if catOf cards = some "straight" ∨ catOf cards = some "flush" then
        ⟨mask_from_indices (deuceIdx cards)⟩
      else if (catOf cards).any (fun c => MADE_HAND_CATEGORIES.contains c) then
        (⟨31⟩ : HoldDecision)
      else if (pairGroups cards).length = 1 then
        ⟨mask_from_indices (deuceIdx cards ++ (pairGroups cards).headD [])⟩
      else ⟨mask_from_indices (deuceIdx cards)⟩) := by
  have hlen : (deuceIdx cards).length = 1 := by
    unfold deuceIdx idxsWhere
    rw [length_idxsFrom]
    exact hd
  have hcat : catOf cards = some (DeucesBonus.classifyBonus cards) := by
    unfold catOf DeucesBonus.evaluate_deuces_bonus
    rw [if_neg (by omega)]
  have hmem := DeucesBonus.classifyBonus_mem cards
  have hlower : strToLower (DeucesBonus.classifyBonus cards)
      = DeucesBonus.classifyBonus cards :=
    bonusCategories_toLower _ hmem
  unfold j_riff_strategy_deuces_wild_bonus
  rw [if_neg (by omega), if_neg (by omega), if_neg (by omega), if_pos hlen,
    hcat]
  dsimp only
  rw [hlower]
  simp only [Option.any_some, Option.some.injEq]
  by_cases hs : DeucesBonus.classifyBonus cards = "straight"
  · rw [if_pos hs, if_pos (Or.inl hs)]
  by_cases hf : DeucesBonus.classifyBonus cards = "flush"
  · rw [if_neg hs, if_pos hf, if_pos (Or.inr hf)]
  rw [if_neg hs, if_neg hf,
    if_neg (show ¬(DeucesBonus.classifyBonus cards = "straight" ∨
      DeucesBonus.classifyBonus cards = "flush") by tauto)]
  by_cases hm :
      MADE_HAND_CATEGORIES.contains (DeucesBonus.classifyBonus cards) = true
  · rw [if_pos hm, if_pos hm]
  · rw [if_neg hm, if_neg hm]
    unfold d1PairFallthrough
    rfl

/-- Witness for C8 at the hand 2♠ 9♦ 9♥ K♣ 4♣ (one deuce, one natural
pair): hold deuce + pair, mask 7. -/
theorem j_riff_one_deuce_witness :
    j_riff_strategy_deuces_wild_bonus
      [⟨2, .S⟩, ⟨9, .D⟩, ⟨9, .H⟩, ⟨13, .C⟩, ⟨4, .C⟩] = ⟨7⟩ := by
  have h := j_riff_one_deuce
    [⟨2, .S⟩, ⟨9, .D⟩, ⟨9, .H⟩, ⟨13, .C⟩, ⟨4, .C⟩] (by decide) (by decide)
  rw [h]
  decide

end JRiff
